import Mathlib

/-!
# Verification of the dynamic table-import engine

Shallow embedding of the ingestion / schema-inference / query service
(`ShoppingService` in `src/shopping`).  JavaScript scalar values are modelled
by the inductive type `Valor`; a row (a JS object) is an ordered association
list from key to value.  JS numbers are modelled exactly as rationals (the
source never relies on IEEE float rounding for the properties studied here),
and the external SQL store is modelled as a list of rows.
-/

set_option autoImplicit false

namespace Compras

/-- A JavaScript scalar cell value as it flows through the import engine:
`null`/`undefined`, a number, a string, a boolean, or a `Date`
(represented by its calendar components, as produced by date parsing). -/
inductive Valor where
  | vnull
  | vnum (q : ℚ)
  | vstr (s : String)
  | vbool (b : Bool)
  | vdate (y m d : Nat)
  deriving DecidableEq, Repr

/-- A row: a JS object, i.e. an ordered mapping from key to value. -/
abbrev Registro := List (String × Valor)

/-- `ColumnaDefinicion` from `columna-definicion.interface.ts`. -/
structure ColumnaDefinicion where
  nombre : String
  tipo : String
  esNullable : Bool
  deriving DecidableEq, Repr

/-- `ColumnaInfo` from `tabla-datos.interface.ts` (the shape returned by
catalog introspection in `obtenerEstructuraTabla`). -/
structure ColumnaInfo where
  nombre : String
  tipo : String
  deriving DecidableEq, Repr

/-! ## Column name normalizer (`normalizarNombresColumnas`) -/

/-- A character kept unchanged by the normalizer: the JS regex class
`[a-zA-Z0-9_]`. -/
def esCaracterPermitido (c : Char) : Bool :=
  c.isAlphanum || c == '_'

/-- `toLowerCase()`, modelled character by character (the engine's data is
ASCII, where JS and `Char.toLower` agree). -/
def aMinusculas (s : String) : String :=
  (s.toList.map Char.toLower).asString

/-- One key normalized: `columna.replace(/[^a-zA-Z0-9_]/g, '_').toLowerCase()`. -/
def normalizarNombre (s : String) : String :=
  aMinusculas (s.toList.map (fun c => if esCaracterPermitido c then c else '_')).asString

/-- Whether a key triggers normalization: `/[^a-zA-Z0-9_]/.test(col)`. -/
def necesitaNormalizacion (s : String) : Bool :=
  s.toList.any (fun c => !(esCaracterPermitido c))

/-- JS object property assignment `obj[k] = v`: updates the value in place if
the key exists (keeping its original position), otherwise appends the key. -/
def objAssign (obj : Registro) (k : String) (v : Valor) : Registro :=
  if obj.any (fun p => p.1 == k) then
    obj.map (fun p => if p.1 == k then (p.1, v) else p)
  else
    obj ++ [(k, v)]

/-- `mapaNombres[nombreOriginal] || nombreOriginal`: a key is renamed
through the mapping when the mapping yields a truthy (non-empty) name,
otherwise it is kept as it is. -/
def aplicarMapaNombre (mapa : List (String × String)) (k : String) : String :=
  match mapa.lookup k with
  | some n => if n = "" then k else n
  | none => k

/-- `normalizarNombresColumnas`: if no key of the *first* record contains a
character outside `[a-zA-Z0-9_]`, the data is returned unchanged; otherwise a
mapping is built from the first record's keys and every record is rebuilt by
JS object assignment, renaming each key through the mapping. -/
def normalizarNombresColumnas (datos : List Registro) : List Registro :=
  match datos with
  | [] => []
  | primero :: _ =>
    let columnas := primero.map Prod.fst
    if !(columnas.any necesitaNormalizacion) then datos
    else
      let mapa : List (String × String) := columnas.map (fun c => (c, normalizarNombre c))
      datos.map (fun registro =>
        registro.foldl (fun acc p =>
          objAssign acc (aplicarMapaNombre mapa p.1) p.2) [])

/-- The key-renaming a record entry actually undergoes: keys of the first
record are normalized, any other key is left as it is. -/
def renombrarClave (columnas : List String) (k : String) : String :=
  if columnas.contains k then normalizarNombre k else k

/-! ## JS number and date helpers used by inference and sanitization -/

/-- The JS regex class `\s`, restricted to the ASCII whitespace characters
that can occur in the ingested data. -/
def esEspacioJS (c : Char) : Bool :=
  c == ' ' || c == '\t' || c == '\n' || c == '\r' || c == '\x0b' || c == '\x0c'

/-- `valor.replace(/[^\d.-]/g, '')`: keep only digits, dots and minus signs. -/
def limpiarNum (s : String) : String :=
  (s.toList.filter (fun c => c.isDigit || c == '.' || c == '-')).asString

/-- `valor.replace(/,/g, '.')`: commas become decimal points. -/
def comasAPuntos (s : String) : String :=
  (s.toList.map (fun c => if c == ',' then '.' else c)).asString

/-- Value of a digit list read in base 10. -/
def digitosVal (ds : List Char) : Nat :=
  ds.foldl (fun a c => a * 10 + (c.toNat - 48)) 0

/-- `!isNaN(Number(s))` for a string over the alphabet `[0-9.-]` (the result
of `limpiarNum`): the empty string converts to `0`; otherwise the whole
string must be an optional minus sign followed by digits with at most one
decimal point and at least one digit. -/
def esNumeroJS (s : String) : Bool :=
  s.isEmpty ||
    (let cs := match s.toList with
      | '-' :: rest => rest
      | cs => cs
    let d1 := cs.takeWhile Char.isDigit
    match cs.dropWhile Char.isDigit with
    | [] => !d1.isEmpty
    | '.' :: r2 =>
      let d2 := r2.takeWhile Char.isDigit
      (r2.dropWhile Char.isDigit).isEmpty && (!d1.isEmpty || !d2.isEmpty)
    | _ => false)

/-- `parseFloat(s)` for a string over the alphabet `[0-9.-]`: parses the
longest prefix of the form `-? (digits (. digits?)? | . digits)`; `none`
models `NaN`.  Values are exact rationals (the engine never relies on IEEE
float rounding for the verified properties). -/
def jsParseFloat (s : String) : Option ℚ :=
  let (neg, cs) := match s.toList with
    | '-' :: rest => (true, rest)
    | cs => (false, cs)
  let d1 := cs.takeWhile Char.isDigit
  let d2 := match cs.dropWhile Char.isDigit with
    | '.' :: r2 => r2.takeWhile Char.isDigit
    | _ => []
  if d1.isEmpty && d2.isEmpty then none
  else
    let mag : ℚ := (digitosVal d1 : ℚ) + (digitosVal d2 : ℚ) / ((10 : ℚ) ^ d2.length)
    some (if neg then -mag else mag)

/-- JS `Math.round`: round half toward positive infinity. -/
def mathRound (q : ℚ) : ℤ :=
  ⌊q + 1 / 2⌋

/-- Days in a month of the proleptic Gregorian calendar. -/
def diasDelMes (y m : Nat) : Nat :=
  if m = 2 then
    if y % 4 = 0 && (y % 100 ≠ 0 || y % 400 = 0) then 29 else 28
  else if m = 4 || m = 6 || m = 9 || m = 11 then 30
  else 31

/-- `new Date(s)` on the calendar-date strings handled by the engine: the ISO
`YYYY-MM-DD` format with an in-range month and day parses to a valid `Date`;
anything else is modelled as an invalid date (`none`).  The engine only
inspects validity of the parse and passes the resulting `Date` through, so
the remaining legacy formats of the JS runtime are outside the embedding. -/
def jsDateParse (s : String) : Option (Nat × Nat × Nat) :=
  match s.toList with
  | [a, b, c, d, s1, e, f, s2, g, i] =>
    if s1 = '-' ∧ s2 = '-' ∧ ([a, b, c, d, e, f, g, i].all Char.isDigit) then
      let y := digitosVal [a, b, c, d]
      let m := digitosVal [e, f]
      let dia := digitosVal [g, i]
      if 1 ≤ m ∧ m ≤ 12 ∧ 1 ≤ dia ∧ dia ≤ diasDelMes y m then some (y, m, dia)
      else none
    else none
  | _ => none

/-- Left-pad a numeral with zeros to the given width. -/
def rellenarCeros (ancho : Nat) (n : Nat) : String :=
  let s := toString n
  (List.replicate (ancho - s.length) '0').asString ++ s

/-- The smallest exponent `k ≤ 40` with `den ∣ 10^k`, when one exists:
rationals whose denominator divides a power of ten print as finite
decimals, like the JS numbers they model. -/
def expDecimal (den : Nat) : Option Nat :=
  (List.range 41).find? (fun k => 10 ^ k % den = 0)

/-- `String(q)` for a number: exact decimal representation when the value is
a finite decimal (every number produced by the embedded parsers is); the
fraction fallback never arises from the modelled code paths. -/
def numAString (q : ℚ) : String :=
  let signo := if q < 0 then "-" else ""
  let n := q.num.natAbs
  match expDecimal q.den with
  | some 0 => signo ++ toString n
  | some k =>
    let escala := n * (10 ^ k / q.den)
    signo ++ toString (escala / 10 ^ k) ++ "." ++ rellenarCeros k (escala % 10 ^ k)
  | none => signo ++ toString n ++ "/" ++ toString q.den

/-- `JSON.stringify` of a `Date`: the quoted ISO timestamp of its midnight. -/
def jsonStringifyFecha (y m d : Nat) : String :=
  "\"" ++ rellenarCeros 4 y ++ "-" ++ rellenarCeros 2 m ++ "-" ++ rellenarCeros 2 d ++
    "T00:00:00.000Z" ++ "\""

/-- `String(valor)` on a scalar. -/
def aCadena (v : Valor) : String :=
  match v with
  | .vnull => "null"
  | .vnum q => numAString q
  | .vstr s => s
  | .vbool b => if b then "true" else "false"
  | .vdate y m d => rellenarCeros 4 y ++ "-" ++ rellenarCeros 2 m ++ "-" ++ rellenarCeros 2 d

/-! ## Value sanitizer (`sanitizarValorSegunTipo`) -/

/-- The truthy word list of the boolean sanitizer. -/
def listaVerdaderos : List String := ["true", "yes", "si", "s", "y", "1"]

/-- The falsy word list of the boolean sanitizer. -/
def listaFalsos : List String := ["false", "no", "n", "0"]

/-- `sanitizarValorSegunTipo(valor, tipo)`: type-aware coercion of one cell.
`Valor.vnull` models the JS `null` returned for unusable input. -/
def sanitizarValorSegunTipo (valor : Valor) (tipo : String) : Valor :=
  match valor with
  | .vnull => .vnull
  | _ =>
    if tipo = "date" ∨ tipo = "timestamp" then
      match valor with
      | .vstr s =>
        match jsDateParse s with
        | some (y, m, d) => .vdate y m d
        | none => .vnull
      | .vdate y m d => .vdate y m d
      | _ => .vnull
    else if tipo = "int" then
      match valor with
      | .vstr s =>
        match jsParseFloat (limpiarNum s) with
        | some q => .vnum ((mathRound q : ℤ) : ℚ)
        | none => .vnull
      | .vnum q => .vnum ((mathRound q : ℤ) : ℚ)
      | _ => .vnull
    else if tipo = "decimal" then
      match valor with
      | .vstr s =>
        match jsParseFloat (limpiarNum (comasAPuntos s)) with
        | some q => .vnum q
        | none => .vnull
      | .vnum q => .vnum q
      | _ => .vnull
    else if tipo = "boolean" then
      match valor with
      | .vstr s =>
        if listaVerdaderos.contains (aMinusculas s) then .vbool true
        else if listaFalsos.contains (aMinusculas s) then .vbool false
        else .vnull
      | .vnum q => if q = 0 then .vbool false else .vbool true
      | .vbool b => .vbool b
      | _ => .vnull
    else
      match valor with
      | .vdate y m d => .vstr (jsonStringifyFecha y m d)
      | v => .vstr (aCadena v)

/-! ## Type inference engine (`analizarEstructuraColumnas`) -/

/-- The column universe: the union of the keys of all records, in first
appearance order (a JS `Set` keeps insertion order). -/
def todasLasColumnas (datos : List Registro) : List String :=
  datos.foldl (fun acc r =>
    r.foldl (fun acc p => if acc.contains p.1 then acc else acc ++ [p.1]) acc) []

/-- The non-null, non-absent values of one column across all records. -/
def valoresNoNulos (datos : List Registro) (columna : String) : List Valor :=
  datos.filterMap (fun r =>
    match r.lookup columna with
    | some .vnull => none
    | some v => some v
    | none => none)

/-- Whether a value is a number (`typeof v === 'number'`). -/
def esNumero (v : Valor) : Bool :=
  match v with
  | .vnum _ => true
  | _ => false

/-- Whether a value is a `Date` (`v instanceof Date`). -/
def esFecha (v : Valor) : Bool :=
  match v with
  | .vdate _ _ _ => true
  | _ => false

/-- Whether a value is a boolean (`typeof v === 'boolean'`). -/
def esBooleano (v : Valor) : Bool :=
  match v with
  | .vbool _ => true
  | _ => false

/-- The scan of the textual branch: a string value containing a letter
(`/[a-zA-Z]/`) or a character outside `[0-9.,\-\s]`; non-string values are
skipped by this scan. -/
def valorNoNumerico (v : Valor) : Bool :=
  match v with
  | .vstr s =>
    s.toList.any Char.isAlpha ||
      s.toList.any (fun c => !(c.isDigit || c == '.' || c == ',' || c == '-' || esEspacioJS c))
  | _ => false

/-- The cleaned form of a potentially numeric string value, when it survives
`!isNaN(Number(cleaned))`; non-string values yield `none`. -/
def numeroPotencial (v : Valor) : Option String :=
  match v with
  | .vstr s =>
    let cleaned := limpiarNum s
    if esNumeroJS cleaned then some cleaned else none
  | _ => none

/-- The inferred type of one column from its non-null values, driven by the
JS type of the first value. -/
def analizarTipoColumna (valores : List Valor) : String :=
  match valores with
  | [] => "text"
  | v0 :: _ =>
    match v0 with
    | .vnum _ =>
      let hasDecimals := valores.any (fun v =>
        match v with
        | .vnum q => q.den ≠ 1
        | _ => false)
      let tipo := if hasDecimals then "decimal" else "int"
      if valores.all esNumero then tipo else "text"
    | .vdate _ _ _ => if valores.all esFecha then "date" else "text"
    | .vbool _ => if valores.all esBooleano then "boolean" else "text"
    | .vstr _ =>
      if valores.any valorNoNumerico then "text"
      else
        let potenciales := valores.filterMap numeroPotencial
        if potenciales.length = valores.length then
          if potenciales.any (fun s => s.toList.contains '.') then "decimal" else "int"
        else "text"
    | .vnull => "text"

/-- `analizarEstructuraColumnas`: one `ColumnaDefinicion` per observed
column, all nullable. -/
def analizarEstructuraColumnas (datos : List Registro) : List ColumnaDefinicion :=
  (todasLasColumnas datos).map (fun columna =>
    { nombre := columna
      tipo := analizarTipoColumna (valoresNoNulos datos columna)
      esNullable := true })

/-- The specified classification of a column of textual values, as the spec
words it: scan for a letter or a character outside `[0-9.,\-\s]`; otherwise
parse every value after stripping non-numeric separators, classifying
`decimal` when some stripped value carries a decimal point, `int` otherwise,
and `text` when some value fails to parse. -/
def clasificarTextualSpec (ss : List String) : String :=
  if ss.any (fun s =>
      s.toList.any Char.isAlpha ||
        s.toList.any (fun c => !(c.isDigit || c == '.' || c == ',' || c == '-' || esEspacioJS c)))
  then "text"
  else if ss.all (fun s => esNumeroJS (limpiarNum s)) then
    if ss.any (fun s => (limpiarNum s).toList.contains '.') then "decimal" else "int"
  else "text"

/-! ## Table name validation (`validarNombreTabla`) -/

/-- The reserved-word denylist of `validarNombreTabla`. -/
def palabrasReservadas : List String :=
  ["select", "from", "where", "insert", "update", "delete", "drop", "create",
   "table", "index", "view", "sequence", "trigger", "user", "group", "order",
   "by", "having", "limit", "offset", "join"]

/-- A lowercase ASCII letter. -/
def esMinuscula (c : Char) : Bool :=
  'a' ≤ c && c ≤ 'z'

/-- The identifier pattern `^[a-z][a-z0-9_]*$`. -/
def nombreTablaValido (s : String) : Bool :=
  match s.toList with
  | [] => false
  | c :: rest => esMinuscula c && rest.all (fun d => esMinuscula d || d.isDigit || d == '_')

/-- `validarNombreTabla`: pattern check, then reserved-word check; an
`error` models the thrown `BadRequestException`. -/
def validarNombreTabla (nombreTabla : String) : Except String Unit :=
  if !(nombreTablaValido nombreTabla) then
    .error "nombre de tabla invalido"
  else if palabrasReservadas.contains (aMinusculas nombreTabla) then
    .error "palabra reservada"
  else
    .ok ()

/-! ## Batch loader (`insertarDatosEnTabla` / `insertarLote`) -/

/-- Per-record field filtering inside `insertarLote`: keep the entries whose
value is non-null and whose key names a known column, sanitizing each kept
value by its column's type. -/
def filtrarRegistro (columnas : List ColumnaDefinicion) (registro : Registro) : Registro :=
  registro.filterMap (fun p =>
    if p.2 = .vnull then none
    else
      match columnas.find? (fun col => col.nombre == p.1) with
      | some col => some (p.1, sanitizarValorSegunTipo p.2 col.tipo)
      | none => none)

/-- `insertarLote`: each record of the batch is filtered; a record with no
valid fields is skipped, otherwise its single parameterized insert either
succeeds or fails per the store oracle `fallaInsert`, a failure being caught
and counted without aborting the batch.  Returns the inserted rows together
with the processed and failed counts. -/
def insertarLote (fallaInsert : Registro → Bool) (columnas : List ColumnaDefinicion)
    (lote : List Registro) : List Registro × Nat × Nat :=
  lote.foldl (fun (acc : List Registro × Nat × Nat) registro =>
    let campos := filtrarRegistro columnas registro
    if campos.isEmpty then acc
    else if fallaInsert registro then (acc.1, acc.2.1, acc.2.2 + 1)
    else (acc.1 ++ [campos], acc.2.1 + 1, acc.2.2)) ([], 0, 0)

/-- The batch-partition loop, written with explicit fuel so that it stays
structurally recursive; each step consumes at least one record, so any fuel
of at least `datos.length` yields the full partition. -/
def lotesAux : Nat → List Registro → List (List Registro)
  | _, [] => []
  | 0, _ => []
  | fuel + 1, datos => datos.take 100 :: lotesAux fuel (datos.drop 100)

/-- The batch partition: `datos.slice(i, i + 100)` for `i = 0, 100, ...`. -/
def lotes (datos : List Registro) : List (List Registro) :=
  lotesAux datos.length datos

/-- The batch loop of `insertarDatosEnTabla`, from batch index `i`: each
batch runs in its own transaction; when the transaction commits
(`¬ fallaCommit i`) the *whole batch size* is added to `totalRecords` and the
batch's inserted rows reach the table; when it errors, the batch is rolled
back and only logged. -/
def procesarLotes (fallaInsert : Registro → Bool) (fallaCommit : Nat → Bool)
    (columnas : List ColumnaDefinicion) : Nat → List (List Registro) → Nat × List Registro
  | _, [] => (0, [])
  | i, lote :: resto =>
    let restoProc := procesarLotes fallaInsert fallaCommit columnas (i + 1) resto
    if fallaCommit i then restoProc
    else (lote.length + restoProc.1, (insertarLote fallaInsert columnas lote).1 ++ restoProc.2)

/-- The global decimal re-check run before loading: when any record holds a
non-integral number, every `int` column that actually contains one is
upgraded to `decimal`. -/
def ajustarColumnasDecimales (columnas : List ColumnaDefinicion) (datos : List Registro) :
    List ColumnaDefinicion :=
  let hayDecimales := datos.any (fun registro =>
    registro.any (fun p =>
      match p.2 with
      | .vnum q => q.den ≠ 1
      | _ => false))
  if hayDecimales then
    columnas.map (fun col =>
      if col.tipo = "int" ∧ datos.any (fun reg =>
          match reg.lookup col.nombre with
          | some (.vnum q) => q.den ≠ 1
          | _ => false) then
        { col with tipo := "decimal" }
      else col)
  else columnas

/-- `insertarDatosEnTabla`: empty input returns immediately; otherwise the
decimal re-check runs, the data is split into batches of 100 and loaded
batch-transactionally; a load error is raised exactly when `totalRecords`
stayed `0`, and otherwise the count and the rows of the committed batches
are the outcome (a mere shortfall is only logged, never an error). -/
def insertarDatosEnTabla (fallaInsert : Registro → Bool) (fallaCommit : Nat → Bool)
    (columnas : List ColumnaDefinicion) (datos : List Registro) :
    Except String (Nat × List Registro) :=
  if datos.isEmpty then .ok (0, [])
  else
    let cols := ajustarColumnasDecimales columnas datos
    let resultado := procesarLotes fallaInsert fallaCommit cols 0 (lotes datos)
    if resultado.1 = 0 then
      .error "ningun registro fue insertado exitosamente"
    else
      .ok resultado

/-! ## Table query service (`obtenerDatosTabla` and row mutations)

The external SQL store is modelled as the list of a table's rows; `LIMIT n
OFFSET k` over a result set is `take n` after `drop k`. -/

/-- The page payload of `obtenerDatosTabla` (`TablaDatos` from
`tabla-datos.interface.ts`). -/
structure TablaDatos where
  columnas : List ColumnaInfo
  datos : List Registro
  totalRegistros : Nat
  page : Nat
  limit : Nat
  totalPages : Nat
  deriving DecidableEq, Repr

/-- The filter entries kept by the WHERE builder: exactly those whose key
names a column of the introspected structure. -/
def filtrosIncluidos (estructura : List ColumnaInfo) (filtros : List (String × Valor)) :
    List (String × Valor) :=
  filtros.filter (fun p => estructura.any (fun col => col.nombre == p.1))

/-- The WHERE clause and bound parameters built by `obtenerDatosTabla`: one
`"campo" = $i` condition and one parameter per kept filter entry, the clause
collapsing to the empty string when nothing survives. -/
def construirWhere (estructura : List ColumnaInfo) (filtros : List (String × Valor)) :
    String × List Valor :=
  let incluidos := filtrosIncluidos estructura filtros
  let condiciones := incluidos.enum.map (fun p =>
    "\x22" ++ p.2.1 ++ "\x22 = $" ++ toString (p.1 + 1))
  (if condiciones.isEmpty then ""
   else " WHERE " ++ String.intercalate " AND " condiciones,
   incluidos.map Prod.snd)

/-- SQL equality of one row against one filter entry: satisfied when the row
holds the filter's value in that column, `NULL` matching nothing. -/
def satisfaceFiltro (fila : Registro) (p : String × Valor) : Bool :=
  match fila.lookup p.1 with
  | some w => w == p.2 && !(w == .vnull)
  | none => false

/-- The rows of the table selected by the kept filter entries. -/
def filtrarFilas (incluidos : List (String × Valor)) (filas : List Registro) : List Registro :=
  filas.filter (fun fila => incluidos.all (satisfaceFiltro fila))

/-- `obtenerDatosTabla` on an existing table: count the filtered rows, fetch
the page `LIMIT limit OFFSET (page - 1) * limit`, and report
`totalPages = Math.ceil(totalRegistros / limit)`. -/
def obtenerDatosTabla (tabla : List Registro) (estructura : List ColumnaInfo)
    (page limit : Nat) (filtros : List (String × Valor)) : TablaDatos :=
  let incluidos := filtrosIncluidos estructura filtros
  let filasFiltradas := filtrarFilas incluidos tabla
  let totalRegistros := filasFiltradas.length
  let offset := (page - 1) * limit
  { columnas := estructura
    datos := (filasFiltradas.drop offset).take limit
    totalRegistros := totalRegistros
    page := page
    limit := limit
    totalPages := (⌈(totalRegistros : ℚ) / (limit : ℚ)⌉).toNat }

/-- The field filter of `actualizarRegistro`: keep an input field only when
its key names a column of the live structure *and is not `id`*, sanitizing
the value by that column's type. -/
def filtrarCamposActualizar (estructura : List ColumnaInfo) (datos : List (String × Valor)) :
    List (String × Valor) :=
  datos.filterMap (fun p =>
    if (estructura.any (fun col => col.nombre == p.1)) ∧ p.1 ≠ "id" then
      match estructura.find? (fun col => col.nombre == p.1) with
      | some col => some (p.1, sanitizarValorSegunTipo p.2 col.tipo)
      | none => none
    else none)

/-- The field filter of `agregarRegistro`: the valid column names exclude
`id` before membership is tested; the type falls back to `varchar` when the
lookup yields nothing usable. -/
def filtrarCamposInsertar (estructura : List ColumnaInfo) (datos : List (String × Valor)) :
    List (String × Valor) :=
  let camposValidos := (estructura.map ColumnaInfo.nombre).filter (fun n => n ≠ "id")
  datos.filterMap (fun p =>
    if camposValidos.contains p.1 then
      let tipoColumna := match (estructura.find? (fun col => col.nombre == p.1)) with
        | some col => if col.tipo = "" then "varchar" else col.tipo
        | none => "varchar"
      some (p.1, sanitizarValorSegunTipo p.2 tipoColumna)
    else none)

/-- SQL `UPDATE ... SET ... WHERE id = ?` applied to one row: each column
named by the SET clauses takes its new value, every other column is kept. -/
def aplicarSet (fila : Registro) (cambios : List (String × Valor)) : Registro :=
  fila.map (fun p =>
    match cambios.lookup p.1 with
    | some w => (p.1, w)
    | none => p)

/-! ## Shared lemmas -/

theorem lookup_eq_none_de_claves (cambios : List (String × Valor)) (k : String)
    (h : ∀ p ∈ cambios, p.1 ≠ k) : cambios.lookup k = none := by
  induction cambios with
  | nil => rfl
  | cons p l ih =>
    have hp : p.1 ≠ k := h p (by simp)
    have hbeq : (k == p.1) = false := beq_eq_false_iff_ne.mpr (fun he => hp he.symm)
    simp only [List.lookup, hbeq]
    exact ih (fun q hq => h q (List.mem_cons_of_mem _ hq))

theorem aplicarSet_conserva_clave (fila : Registro) (cambios : List (String × Valor))
    (k : String) (h : ∀ p ∈ cambios, p.1 ≠ k) :
    (aplicarSet fila cambios).lookup k = fila.lookup k := by
  have hnone : cambios.lookup k = none := lookup_eq_none_de_claves cambios k h
  induction fila with
  | nil => rfl
  | cons p fila ih =>
    simp only [aplicarSet, List.map_cons] at *
    by_cases hk : p.1 = k
    · subst hk
      rw [hnone]
      simp [List.lookup]
    · have hbeq : (k == p.1) = false := beq_eq_false_iff_ne.mpr (fun he => hk he.symm)
      cases hc : List.lookup p.1 cambios with
      | none => simpa [List.lookup, hbeq] using ih
      | some w => simpa [List.lookup, hbeq] using ih

theorem totalPages_formula (t l : Nat) (hl : 1 ≤ l) :
    (⌈(t : ℚ) / (l : ℚ)⌉).toNat = (t + l - 1) / l := by
  have hl0 : (0 : ℚ) < (l : ℚ) := by exact_mod_cast hl
  have hdm := Nat.div_add_mod (t + l - 1) l
  have hmod : (t + l - 1) % l < l := Nat.mod_lt _ (by omega)
  have hceil : ⌈(t : ℚ) / (l : ℚ)⌉ = ((t + l - 1) / l : ℕ) := by
    rw [Int.ceil_eq_iff]
    constructor
    · rw [lt_div_iff₀ hl0]
      have hZ : ((t + l - 1) / l : ℕ) * (l : ℤ) - l < t := by
        rw [mul_comm]
        omega
      calc ((((t + l - 1) / l : ℕ) : ℚ) - 1) * l
          = (((t + l - 1) / l : ℕ) : ℚ) * l - l := by ring
        _ < t := by exact_mod_cast hZ
    · rw [div_le_iff₀ hl0]
      have hZ : (t : ℤ) ≤ ((t + l - 1) / l : ℕ) * (l : ℤ) := by
        rw [mul_comm]
        omega
      exact_mod_cast hZ
  rw [hceil]
  exact Int.toNat_natCast _

theorem sanitizar_vstr_boolean (s : String) :
    sanitizarValorSegunTipo (.vstr s) "boolean" =
      (if listaVerdaderos.contains (aMinusculas s) then .vbool true
       else if listaFalsos.contains (aMinusculas s) then .vbool false
       else .vnull) := rfl

/-! ## Claim theorems -/

/-- C5: for target type `boolean`, a textual value is matched
case-insensitively against the truthy set (yielding `true`) and then against
the falsy set (yielding `false`), with any other text mapped to `null`; a
numeric value maps to `false` exactly when it is zero; a boolean value is
passed through unchanged. -/
theorem sanitizar_boolean_caracterizado :
    (∀ s : String,
      (sanitizarValorSegunTipo (.vstr s) "boolean" = .vbool true ↔ (aMinusculas s) ∈ listaVerdaderos)
      ∧ (sanitizarValorSegunTipo (.vstr s) "boolean" = .vbool false ↔ (aMinusculas s) ∈ listaFalsos)
      ∧ (sanitizarValorSegunTipo (.vstr s) "boolean" = .vnull
          ↔ (aMinusculas s) ∉ listaVerdaderos ∧ (aMinusculas s) ∉ listaFalsos))
    ∧ (∀ q : ℚ, (sanitizarValorSegunTipo (.vnum q) "boolean" = .vbool false ↔ q = 0)
        ∧ (sanitizarValorSegunTipo (.vnum q) "boolean" = .vbool true ↔ q ≠ 0))
    ∧ (∀ b : Bool, sanitizarValorSegunTipo (.vbool b) "boolean" = .vbool b) := by
  refine ⟨fun s => ?_, fun q => ?_, fun b => by cases b <;> rfl⟩
  · rw [sanitizar_vstr_boolean]
    by_cases hv : listaVerdaderos.contains (aMinusculas s)
    · have hv' : (aMinusculas s) ∈ listaVerdaderos := List.elem_iff.mp hv
      have hv2 : aMinusculas s = "true" ∨ aMinusculas s = "yes" ∨ aMinusculas s = "si" ∨
          aMinusculas s = "s" ∨ aMinusculas s = "y" ∨ aMinusculas s = "1" := by
        simpa [listaVerdaderos] using hv'
      have hnf : (aMinusculas s) ∉ listaFalsos := by
        rcases hv2 with h|h|h|h|h|h <;> rw [h] <;> decide
      simp [hv, hv', hnf]
    · have hv' : (aMinusculas s) ∉ listaVerdaderos := fun hm => hv (List.elem_iff.mpr hm)
      by_cases hf : listaFalsos.contains (aMinusculas s)
      · have hf' : (aMinusculas s) ∈ listaFalsos := List.elem_iff.mp hf
        simp [hv, hf, hv', hf']
      · have hf' : (aMinusculas s) ∉ listaFalsos := fun hm => hf (List.elem_iff.mpr hm)
        simp [hv, hf, hv', hf']
  · have hred : sanitizarValorSegunTipo (.vnum q) "boolean"
        = (if q = 0 then .vbool false else .vbool true) := rfl
    rw [hred]
    by_cases hq : q = 0 <;> simp [hq]

/-- C7: table creation's name validation errors exactly when the requested
name fails the pattern `^[a-z][a-z0-9_]*$` or is, case-insensitively, one of
the denylisted SQL reserved words; in particular `select` is rejected as a
reserved word. -/
theorem validar_nombre_tabla_correcto :
    (∀ s : String,
      validarNombreTabla s = .ok ()
        ↔ (nombreTablaValido s = true ∧ ¬ ∃ w ∈ palabrasReservadas, aMinusculas s = w))
    ∧ validarNombreTabla "select" = .error "palabra reservada" := by
  constructor
  · intro s
    have hred : validarNombreTabla s =
        (if nombreTablaValido s then
           (if palabrasReservadas.contains (aMinusculas s) then
              Except.error "palabra reservada"
            else Except.ok ())
         else Except.error "nombre de tabla invalido") := by
      unfold validarNombreTabla
      cases nombreTablaValido s <;> simp
    rw [hred]
    by_cases hv : nombreTablaValido s
    · by_cases hr : palabrasReservadas.contains (aMinusculas s)
      · have hr' : aMinusculas s ∈ palabrasReservadas := List.elem_iff.mp hr
        simp only [hv, hr, if_true]
        constructor
        · intro h
          cases h
        · rintro ⟨-, hno⟩
          exact absurd ⟨aMinusculas s, hr', rfl⟩ hno
      · have hr2 : palabrasReservadas.contains (aMinusculas s) = false := by simpa using hr
        have hr' : aMinusculas s ∉ palabrasReservadas := fun hm => hr (List.elem_iff.mpr hm)
        simp only [hv, hr2, if_true, Bool.false_eq_true, if_false]
        constructor
        · intro _
          refine ⟨trivial, ?_⟩
          rintro ⟨w, hw, he⟩
          exact hr' (he ▸ hw)
        · intro _
          trivial
    · have hv2 : nombreTablaValido s = false := by simpa using hv
      simp only [hv2, Bool.false_eq_true, if_false]
      constructor
      · intro h
        cases h
      · rintro ⟨hvt, -⟩
        exact hvt.elim
  · rfl

/-- C9: neither row mutation ever writes the `id` column: the update field
filter and the insert field filter both drop a caller-supplied `id` entry,
so the SET clause of an update leaves every row's `id` untouched and an
insert's column list never names `id`. -/
theorem mutaciones_protegen_id (estructura : List ColumnaInfo)
    (datos : List (String × Valor)) :
    (∀ p ∈ filtrarCamposActualizar estructura datos, p.1 ≠ "id")
    ∧ (∀ p ∈ filtrarCamposInsertar estructura datos, p.1 ≠ "id")
    ∧ ∀ fila : Registro,
        (aplicarSet fila (filtrarCamposActualizar estructura datos)).lookup "id"
          = fila.lookup "id" := by
  have hAct : ∀ p ∈ filtrarCamposActualizar estructura datos, p.1 ≠ "id" := by
    intro p hp
    rw [filtrarCamposActualizar, List.mem_filterMap] at hp
    obtain ⟨a, -, hfa⟩ := hp
    by_cases hc : (estructura.any (fun col => col.nombre == a.1)) = true ∧ a.1 ≠ "id"
    · rw [if_pos hc] at hfa
      cases hfind : estructura.find? (fun col => col.nombre == a.1) with
      | none => rw [hfind] at hfa; cases hfa
      | some col =>
        rw [hfind] at hfa
        cases hfa
        exact hc.2
    · rw [if_neg hc] at hfa
      cases hfa
  refine ⟨hAct, ?_, fun fila => aplicarSet_conserva_clave fila _ "id" hAct⟩
  intro p hp
  rw [filtrarCamposInsertar, List.mem_filterMap] at hp
  obtain ⟨a, -, hfa⟩ := hp
  by_cases hc : ((estructura.map ColumnaInfo.nombre).filter (fun n => n ≠ "id")).contains a.1
  · simp only [hc, if_true] at hfa
    cases hfa
    have := List.elem_iff.mp hc
    rw [List.mem_filter] at this
    exact of_decide_eq_true this.2
  · simp only [hc, Bool.false_eq_true, if_false] at hfa
    cases hfa

theorem filtrosIncluidos_sin_campo (estructura : List ColumnaInfo)
    (filtros : List (String × Valor)) (campo : String)
    (h : ∀ col ∈ estructura, col.nombre ≠ campo) :
    filtrosIncluidos estructura (filtros.filter (fun p => !(p.1 == campo)))
      = filtrosIncluidos estructura filtros := by
  unfold filtrosIncluidos
  rw [List.filter_filter]
  apply List.filter_congr
  intro p _
  cases hinc : estructura.any (fun col => col.nombre == p.1) with
  | false => simp [hinc]
  | true =>
    obtain ⟨col, hcol, hbe⟩ := List.any_eq_true.mp hinc
    have hne : p.1 ≠ campo := by
      have : col.nombre = p.1 := beq_iff_eq.mp hbe
      exact this ▸ h col hcol
    simp [hinc, beq_eq_false_iff_ne.mpr hne]

/-- C6: a filter key that names no column of the table's current structure
contributes nothing: the generated WHERE clause and bound parameters (shared
by the count query and the page query) are exactly those produced with the
unknown key removed, the whole paginated read is unchanged by the unknown
key, and every filter entry that is kept names an existing column. -/
theorem filtros_desconocidos_seguros (estructura : List ColumnaInfo)
    (filtros : List (String × Valor)) (campo : String)
    (h : ∀ col ∈ estructura, col.nombre ≠ campo) :
    construirWhere estructura filtros
        = construirWhere estructura (filtros.filter (fun p => !(p.1 == campo)))
    ∧ (∀ tabla page limit,
        obtenerDatosTabla tabla estructura page limit filtros
          = obtenerDatosTabla tabla estructura page limit
              (filtros.filter (fun p => !(p.1 == campo))))
    ∧ ∀ p ∈ filtrosIncluidos estructura filtros,
        ∃ col ∈ estructura, col.nombre = p.1 := by
  have hkey := filtrosIncluidos_sin_campo estructura filtros campo h
  refine ⟨?_, fun tabla page limit => ?_, fun p hp => ?_⟩
  · unfold construirWhere
    rw [hkey]
  · unfold obtenerDatosTabla
    rw [hkey]
  · have := List.mem_filter.mp hp
    obtain ⟨col, hcol, hbe⟩ := List.any_eq_true.mp this.2
    exact ⟨col, hcol, beq_iff_eq.mp hbe⟩

theorem filtros_desconocidos_seguros_witness :
    (∀ col ∈ ([⟨"x", "text"⟩] : List ColumnaInfo), col.nombre ≠ "y")
    ∧ construirWhere [⟨"x", "text"⟩] [("y", Valor.vnum 1)]
        = construirWhere [⟨"x", "text"⟩]
            ([("y", Valor.vnum 1)].filter (fun p => !(p.1 == "y"))) :=
  ⟨by decide, (filtros_desconocidos_seguros [⟨"x", "text"⟩] [("y", Valor.vnum 1)] "y"
    (by decide)).1⟩

/-- C8: the paginated read returns at most `limit` rows, namely the slice of
the filtered row set starting at offset `(page - 1) * limit`; it reports the
filtered count as `totalRegistros` and `totalPages = ⌈totalRegistros /
limit⌉`; page 2 with limit 10 of a 25-row unfiltered table yields 10 rows
and 3 total pages. -/
theorem obtener_datos_paginacion (tabla : List Registro) (estructura : List ColumnaInfo)
    (page limit : Nat) (filtros : List (String × Valor)) (hl : 1 ≤ limit) :
    ((obtenerDatosTabla tabla estructura page limit filtros).datos.length ≤ limit)
    ∧ (obtenerDatosTabla tabla estructura page limit filtros).datos
        = ((filtrarFilas (filtrosIncluidos estructura filtros) tabla).drop
            ((page - 1) * limit)).take limit
    ∧ (obtenerDatosTabla tabla estructura page limit filtros).totalRegistros
        = (filtrarFilas (filtrosIncluidos estructura filtros) tabla).length
    ∧ (obtenerDatosTabla tabla estructura page limit filtros).totalPages
        = ((filtrarFilas (filtrosIncluidos estructura filtros) tabla).length + limit - 1)
            / limit
    ∧ (tabla.length = 25 → page = 2 → limit = 10 → filtros = []
        → (obtenerDatosTabla tabla estructura page limit filtros).datos.length = 10
          ∧ (obtenerDatosTabla tabla estructura page limit filtros).totalPages = 3) := by
  refine ⟨?_, rfl, rfl, ?_, ?_⟩
  · simp only [obtenerDatosTabla, List.length_take]
    omega
  · exact totalPages_formula
      (filtrarFilas (filtrosIncluidos estructura filtros) tabla).length limit hl
  · rintro h25 rfl rfl rfl
    have hfall : filtrarFilas (filtrosIncluidos estructura []) tabla = tabla := by
      simp [filtrosIncluidos, filtrarFilas]
    have hlen : (filtrarFilas (filtrosIncluidos estructura []) tabla).length = 25 := by
      rw [hfall, h25]
    constructor
    · simp only [obtenerDatosTabla, List.length_take, List.length_drop, hfall, h25]
      omega
    · show (⌈((filtrarFilas (filtrosIncluidos estructura []) tabla).length : ℚ)
          / ((10 : ℕ) : ℚ)⌉).toNat = 3
      rw [hlen, totalPages_formula 25 10 (by norm_num)]

theorem obtener_datos_paginacion_witness :
    (1 : ℕ) ≤ 10
    ∧ (obtenerDatosTabla (List.replicate 25 [("x", Valor.vnum 1)])
        [⟨"x", "numeric"⟩] 2 10 []).datos.length = 10
    ∧ (obtenerDatosTabla (List.replicate 25 [("x", Valor.vnum 1)])
        [⟨"x", "numeric"⟩] 2 10 []).totalPages = 3 := by
  refine ⟨by decide, ?_⟩
  exact (obtener_datos_paginacion (List.replicate 25 [("x", Valor.vnum 1)])
    [⟨"x", "numeric"⟩] 2 10 [] (by decide)).2.2.2.2 (by simp) rfl rfl rfl

theorem sanitizar_texto_vstr (s : String) :
    sanitizarValorSegunTipo (.vstr s) "text" = .vstr s := rfl

theorem mathRound_entero (n : ℤ) : mathRound ((n : ℤ) : ℚ) = n := by
  unfold mathRound
  rw [add_comm, Int.floor_add_int]
  norm_num

/-- C4: re-sanitizing a sanitized value is the identity: for each of the
five inferred types, whenever `sanitizarValorSegunTipo v tipo` is non-null,
applying the sanitizer again to its result reproduces it. -/
theorem sanitizar_idempotente (tipo : String) (v : Valor)
    (htipo : tipo ∈ ["int", "decimal", "text", "boolean", "date"])
    (hnn : sanitizarValorSegunTipo v tipo ≠ .vnull) :
    sanitizarValorSegunTipo (sanitizarValorSegunTipo v tipo) tipo
      = sanitizarValorSegunTipo v tipo := by
  simp only [List.mem_cons, List.not_mem_nil, or_false] at htipo
  rcases htipo with rfl | rfl | rfl | rfl | rfl
  · -- int
    cases v with
    | vnull => exact absurd rfl hnn
    | vbool b => exact absurd rfl hnn
    | vdate y m d => exact absurd rfl hnn
    | vnum q =>
      have hred : sanitizarValorSegunTipo (.vnum q) "int"
          = .vnum ((mathRound q : ℤ) : ℚ) := rfl
      rw [hred]
      have hred2 : sanitizarValorSegunTipo (.vnum ((mathRound q : ℤ) : ℚ)) "int"
          = .vnum ((mathRound ((mathRound q : ℤ) : ℚ) : ℤ) : ℚ) := rfl
      rw [hred2, mathRound_entero]
    | vstr s =>
      have hred : sanitizarValorSegunTipo (.vstr s) "int"
          = (match jsParseFloat (limpiarNum s) with
             | some q => .vnum ((mathRound q : ℤ) : ℚ)
             | none => .vnull) := rfl
      rw [hred] at hnn ⊢
      cases hp : jsParseFloat (limpiarNum s) with
      | none => rw [hp] at hnn; exact absurd rfl hnn
      | some q =>
        show sanitizarValorSegunTipo (.vnum ((mathRound q : ℤ) : ℚ)) "int"
            = .vnum ((mathRound q : ℤ) : ℚ)
        have hred2 : sanitizarValorSegunTipo (.vnum ((mathRound q : ℤ) : ℚ)) "int"
            = .vnum ((mathRound ((mathRound q : ℤ) : ℚ) : ℤ) : ℚ) := rfl
        rw [hred2, mathRound_entero]
  · -- decimal
    cases v with
    | vnull => exact absurd rfl hnn
    | vbool b => exact absurd rfl hnn
    | vdate y m d => exact absurd rfl hnn
    | vnum q => rfl
    | vstr s =>
      have hred : sanitizarValorSegunTipo (.vstr s) "decimal"
          = (match jsParseFloat (limpiarNum (comasAPuntos s)) with
             | some q => .vnum q
             | none => .vnull) := rfl
      rw [hred] at hnn ⊢
      cases hp : jsParseFloat (limpiarNum (comasAPuntos s)) with
      | none => rw [hp] at hnn; exact absurd rfl hnn
      | some q =>
        show sanitizarValorSegunTipo (.vnum q) "decimal" = .vnum q
        rfl
  · -- text
    cases v with
    | vnull => exact absurd rfl hnn
    | vbool b =>
      have hred : sanitizarValorSegunTipo (.vbool b) "text"
          = .vstr (if b then "true" else "false") := rfl
      rw [hred, sanitizar_texto_vstr]
    | vdate y m d =>
      have hred : sanitizarValorSegunTipo (.vdate y m d) "text"
          = .vstr (jsonStringifyFecha y m d) := rfl
      rw [hred, sanitizar_texto_vstr]
    | vnum q =>
      have hred : sanitizarValorSegunTipo (.vnum q) "text"
          = .vstr (numAString q) := rfl
      rw [hred, sanitizar_texto_vstr]
    | vstr s => rw [sanitizar_texto_vstr, sanitizar_texto_vstr]
  · -- boolean
    cases v with
    | vnull => exact absurd rfl hnn
    | vbool b => rfl
    | vdate y m d => exact absurd rfl hnn
    | vnum q =>
      have hred : sanitizarValorSegunTipo (.vnum q) "boolean"
          = (if q = 0 then .vbool false else .vbool true) := rfl
      rw [hred]
      by_cases hq : q = 0
      · rw [if_pos hq]; rfl
      · rw [if_neg hq]; rfl
    | vstr s =>
      rw [sanitizar_vstr_boolean] at hnn ⊢
      by_cases hv : listaVerdaderos.contains (aMinusculas s)
      · rw [if_pos hv]; rfl
      · rw [if_neg hv] at hnn ⊢
        by_cases hf : listaFalsos.contains (aMinusculas s)
        · rw [if_pos hf]; rfl
        · rw [if_neg hf] at hnn
          exact absurd rfl hnn
  · -- date
    cases v with
    | vnull => exact absurd rfl hnn
    | vbool b => exact absurd rfl hnn
    | vnum q => exact absurd rfl hnn
    | vdate y m d => rfl
    | vstr s =>
      have hred : sanitizarValorSegunTipo (.vstr s) "date"
          = (match jsDateParse s with
             | some (y, m, d) => .vdate y m d
             | none => .vnull) := rfl
      rw [hred] at hnn ⊢
      cases hp : jsDateParse s with
      | none => rw [hp] at hnn; exact absurd rfl hnn
      | some ymd =>
        obtain ⟨y, m, d⟩ := ymd
        show sanitizarValorSegunTipo (.vdate y m d) "date" = .vdate y m d
        rfl

theorem sanitizar_idempotente_witness :
    ("boolean" ∈ ["int", "decimal", "text", "boolean", "date"]
      ∧ sanitizarValorSegunTipo (.vstr "SI") "boolean" ≠ .vnull)
    ∧ sanitizarValorSegunTipo (sanitizarValorSegunTipo (.vstr "SI") "boolean") "boolean"
        = sanitizarValorSegunTipo (.vstr "SI") "boolean" :=
  ⟨⟨by decide, by decide⟩,
    sanitizar_idempotente "boolean" (.vstr "SI") (by decide) (by decide)⟩

theorem length_filterMap_iff {α β : Type} (f : α → Option β) (l : List α) :
    ((l.filterMap f).length = l.length) ↔ ∀ a ∈ l, (f a).isSome := by
  induction l with
  | nil => simp
  | cons a l ih =>
    cases hf : f a with
    | none =>
      have hle := List.length_filterMap_le f l
      simp only [List.filterMap_cons, hf, List.length_cons]
      constructor
      · intro hlen
        omega
      · intro hall
        have := hall a (List.mem_cons_self a l)
        rw [hf] at this
        cases this
    | some b =>
      simp only [List.filterMap_cons, hf, List.length_cons, Nat.add_right_cancel_iff, ih]
      constructor
      · intro hall a' ha'
        rcases List.mem_cons.mp ha' with rfl | hm
        · rw [hf]; rfl
        · exact hall a' hm
      · intro hall a' ha'
        exact hall a' (List.mem_cons_of_mem _ ha')

theorem filterMap_todo_some {α β : Type} (f : α → Option β) (g : α → β) (l : List α)
    (h : ∀ a ∈ l, f a = some (g a)) : l.filterMap f = l.map g := by
  induction l with
  | nil => rfl
  | cons a l ih =>
    rw [List.filterMap_cons, h a (List.mem_cons_self a l), List.map_cons,
      ih (fun a' ha' => h a' (List.mem_cons_of_mem _ ha'))]

theorem any_map_general {α β : Type} (f : α → β) (p : β → Bool) (l : List α) :
    (l.map f).any p = l.any (fun a => p (f a)) := by
  induction l with
  | nil => rfl
  | cons a l ih => simp [ih]

theorem analizar_vstr_red (s0 : String) (resto : List Valor) :
    analizarTipoColumna (.vstr s0 :: resto) =
      (if (Valor.vstr s0 :: resto).any valorNoNumerico then "text"
       else
         if ((Valor.vstr s0 :: resto).filterMap numeroPotencial).length
             = (Valor.vstr s0 :: resto).length then
           if ((Valor.vstr s0 :: resto).filterMap numeroPotencial).any
               (fun s => s.toList.contains '.') then "decimal" else "int"
         else "text") := rfl

/-- C3: on a column of strings, the inferred type is exactly the specified
classification: `text` as soon as some value holds a letter or a character
outside `[0-9.,\-\s]`, otherwise `decimal`/`int` according to the presence of
a decimal point in the stripped values when they all survive the numeric
check, and `text` when one of them does not; in particular the column
`5`, `7`, `abc` is inferred `text`, also through the full
`analizarEstructuraColumnas` pipeline. -/
theorem inferencia_columna_textual (ss : List String) (hne : ss ≠ []) :
    analizarTipoColumna (ss.map Valor.vstr) = clasificarTextualSpec ss
    ∧ analizarTipoColumna [.vstr "5", .vstr "7", .vstr "abc"] = "text"
    ∧ analizarEstructuraColumnas
        [[("Cantidad", .vstr "5")], [("Cantidad", .vstr "7")], [("Cantidad", .vstr "abc")]]
        = [{ nombre := "Cantidad", tipo := "text", esNullable := true }] := by
  refine ⟨?_, by decide, by decide⟩
  cases ss with
  | nil => exact absurd rfl hne
  | cons s0 resto =>
    rw [List.map_cons, analizar_vstr_red]
    have hany : (Valor.vstr s0 :: resto.map Valor.vstr).any valorNoNumerico
        = (s0 :: resto).any (fun s =>
            s.toList.any Char.isAlpha ||
              s.toList.any (fun c =>
                !(c.isDigit || c == '.' || c == ',' || c == '-' || esEspacioJS c))) := by
      rw [← List.map_cons, any_map_general]
      rfl
    have hpot : (Valor.vstr s0 :: resto.map Valor.vstr).filterMap numeroPotencial
        = (s0 :: resto).filterMap (fun s =>
            if esNumeroJS (limpiarNum s) then some (limpiarNum s) else none) := by
      rw [← List.map_cons, List.filterMap_map]
      rfl
    unfold clasificarTextualSpec
    by_cases h1 : (s0 :: resto).any (fun s =>
        s.toList.any Char.isAlpha ||
          s.toList.any (fun c =>
            !(c.isDigit || c == '.' || c == ',' || c == '-' || esEspacioJS c)))
    · rw [if_pos (hany ▸ h1), if_pos h1]
    · rw [if_neg (fun hc => h1 (hany ▸ hc)), if_neg h1]
      by_cases h2 : ∀ s ∈ (s0 :: resto), esNumeroJS (limpiarNum s)
      · have hall : (s0 :: resto).all (fun s => esNumeroJS (limpiarNum s)) :=
          List.all_eq_true.mpr h2
        have hsome : ∀ s ∈ (s0 :: resto),
            (if esNumeroJS (limpiarNum s) then some (limpiarNum s) else none)
              = some (limpiarNum s) := fun s hs => if_pos (h2 s hs)
        have hmap := filterMap_todo_some _ limpiarNum (s0 :: resto) hsome
        have hlen : ((Valor.vstr s0 :: resto.map Valor.vstr).filterMap numeroPotencial).length
            = (Valor.vstr s0 :: resto.map Valor.vstr).length := by
          rw [hpot, hmap]
          simp
        rw [if_pos hlen, if_pos hall, hpot, hmap, any_map_general]
      · have hno : ¬ (s0 :: resto).all (fun s => esNumeroJS (limpiarNum s)) :=
          fun hc => h2 (List.all_eq_true.mp hc)
        have hlen : ¬ ((Valor.vstr s0 :: resto.map Valor.vstr).filterMap numeroPotencial).length
            = (Valor.vstr s0 :: resto.map Valor.vstr).length := by
          rw [hpot]
          intro hc
          apply h2
          intro s hs
          have hlen2 : ((s0 :: resto).filterMap (fun s =>
              if esNumeroJS (limpiarNum s) then some (limpiarNum s) else none)).length
              = (s0 :: resto).length := by
            rw [hc]
            simp
          have := (length_filterMap_iff _ _).mp hlen2 s hs
          by_cases hn : esNumeroJS (limpiarNum s)
          · exact hn
          · rw [if_neg hn] at this
            cases this
        rw [if_neg hlen, if_neg hno]

theorem inferencia_columna_textual_witness :
    (["5", "7", "abc"] : List String) ≠ []
    ∧ analizarTipoColumna (["5", "7", "abc"].map Valor.vstr)
        = clasificarTextualSpec ["5", "7", "abc"] :=
  ⟨by decide, (inferencia_columna_textual ["5", "7", "abc"] (by decide)).1⟩

theorem normalizarNombre_vacio (s : String) (h : normalizarNombre s = "") : s = "" := by
  have hd : ((s.data.map (fun c => if esCaracterPermitido c then c else '_')).map
      Char.toLower) = ([] : List Char) := congrArg String.data h
  rw [List.map_eq_nil_iff, List.map_eq_nil_iff] at hd
  cases s with
  | mk data =>
    have hdata : data = [] := hd
    subst hdata
    rfl

theorem aplicarMapaNombre_renombra (columnas : List String) (k : String) :
    aplicarMapaNombre (columnas.map (fun c => (c, normalizarNombre c))) k
      = renombrarClave columnas k := by
  induction columnas with
  | nil => rfl
  | cons c cs ih =>
    unfold aplicarMapaNombre renombrarClave at *
    by_cases hk : k = c
    · subst hk
      simp only [List.map_cons, List.lookup, beq_self_eq_true]
      by_cases h0 : normalizarNombre k = ""
      · have hk0 : k = "" := normalizarNombre_vacio k h0
        subst hk0
        simp [h0, List.contains_cons]
      · rw [if_neg h0]
        simp [List.contains_cons]
    · have hbeq : (k == c) = false := beq_eq_false_iff_ne.mpr hk
      simp only [List.map_cons, List.lookup, hbeq]
      rw [ih]
      have hcont : (c :: cs).contains k = cs.contains k := by
        simp only [List.contains_cons, hbeq, Bool.false_or]
      rw [hcont]

theorem foldl_objAssign_nodup (rename : String → String) (r acc : Registro)
    (h : ((acc.map Prod.fst) ++ r.map (fun p => rename p.1)).Nodup) :
    r.foldl (fun acc p => objAssign acc (rename p.1) p.2) acc
      = acc ++ r.map (fun p => (rename p.1, p.2)) := by
  induction r generalizing acc with
  | nil => simp
  | cons p r ih =>
    have hdisj := (List.nodup_append.mp (by simpa using h)).2.2
    have hnotin : rename p.1 ∉ acc.map Prod.fst := fun hmem =>
      hdisj hmem (List.mem_cons_self _ _)
    have hany : acc.any (fun q => q.1 == rename p.1) = false := by
      rw [Bool.eq_false_iff]
      intro hc
      obtain ⟨q, hq, hbe⟩ := List.any_eq_true.mp hc
      exact hnotin (beq_iff_eq.mp hbe ▸ List.mem_map_of_mem Prod.fst hq)
    have hassign : objAssign acc (rename p.1) p.2 = acc ++ [(rename p.1, p.2)] := by
      unfold objAssign
      rw [hany]
      rfl
    rw [List.foldl_cons, hassign, ih (acc ++ [(rename p.1, p.2)]) ?hno]
    · simp
    case hno =>
      simpa [List.append_assoc] using h

theorem normalizarNombresColumnas_cons (primero : Registro) (resto : List Registro) :
    normalizarNombresColumnas (primero :: resto)
      = (if !((primero.map Prod.fst).any necesitaNormalizacion) then primero :: resto
         else (primero :: resto).map (fun registro =>
           registro.foldl (fun acc p =>
             objAssign acc (aplicarMapaNombre ((primero.map Prod.fst).map
               (fun c => (c, normalizarNombre c))) p.1) p.2) [])) := rfl

/-- C2 amended: the normalization mapping is computed from the *first*
record's keys only, and each record is rebuilt by renaming exactly the keys
that occur in the first record (values and entry order preserved, assuming
the renamed keys of a record stay pairwise distinct); a key of a later
record that does not occur in the first record is left completely
unchanged. -/
theorem normalizacion_primer_registro (datos : List Registro) (primero : Registro)
    (resto : List Registro) (hd : datos = primero :: resto)
    (htrig : (primero.map Prod.fst).any necesitaNormalizacion = true)
    (hnodup : ∀ r ∈ datos,
        (r.map (fun p => renombrarClave (primero.map Prod.fst) p.1)).Nodup) :
    normalizarNombresColumnas datos
      = datos.map (fun r =>
          r.map (fun p => (renombrarClave (primero.map Prod.fst) p.1, p.2))) := by
  subst hd
  rw [normalizarNombresColumnas_cons, htrig]
  simp only [Bool.not_true, Bool.false_eq_true, if_false, aplicarMapaNombre_renombra]
  apply List.map_congr_left
  intro r hr
  have := foldl_objAssign_nodup (renombrarClave (primero.map Prod.fst)) r [] (by
    simpa using hnodup r hr)
  simpa using this

theorem normalizacion_primer_registro_witness :
    normalizarNombresColumnas [[("A B", Valor.vnum 1)], [("C D", Valor.vnum 2)]]
      = [[("A B", Valor.vnum 1)], [("C D", Valor.vnum 2)]].map (fun r =>
          r.map (fun p => (renombrarClave ["A B"] p.1, p.2))) :=
  normalizacion_primer_registro _ [("A B", Valor.vnum 1)] [[("C D", Valor.vnum 2)]]
    rfl (by decide) (by decide)

/-- C2 counterexample: on the input whose first record has the single key
`A B` and whose second record has the single key `C D`, normalization is
triggered, the first record's key becomes `a_b`, but the second record's key
stays `C D` — not its normalized form `c_d` — so the claimed single mapping
over every record's keys is not applied and the records do not end up with
keys drawn from one normalized key set. -/
theorem normalizacion_no_uniforme :
    normalizarNombresColumnas [[("A B", Valor.vnum 1)], [("C D", Valor.vnum 2)]]
      = [[("a_b", Valor.vnum 1)], [("C D", Valor.vnum 2)]]
    ∧ normalizarNombre "C D" = "c_d"
    ∧ ("C D" : String) ≠ "c_d" :=
  ⟨by decide, by decide, by decide⟩

theorem lotesAux_nil (fuel : Nat) : lotesAux fuel [] = [] := by
  cases fuel <;> rfl

theorem lotesAux_fuel (fuel1 : Nat) : ∀ (fuel2 : Nat) (datos : List Registro),
    datos.length ≤ fuel1 → datos.length ≤ fuel2 →
    lotesAux fuel1 datos = lotesAux fuel2 datos := by
  induction fuel1 with
  | zero =>
    intro fuel2 datos h1 _
    have : datos = [] := List.length_eq_zero.mp (Nat.le_zero.mp h1)
    subst this
    rw [lotesAux_nil, lotesAux_nil]
  | succ f ih =>
    intro fuel2 datos h1 h2
    cases datos with
    | nil => rw [lotesAux_nil, lotesAux_nil]
    | cons d ds =>
      cases fuel2 with
      | zero => simp at h2
      | succ f2 =>
        simp only [List.length_cons] at h1 h2
        show (d :: ds).take 100 :: lotesAux f ((d :: ds).drop 100)
            = (d :: ds).take 100 :: lotesAux f2 ((d :: ds).drop 100)
        rw [ih f2 ((d :: ds).drop 100)
          (by simp only [List.length_drop, List.length_cons]; omega)
          (by simp only [List.length_drop, List.length_cons]; omega)]

theorem lotes_cons (datos : List Registro) (h : datos ≠ []) :
    lotes datos = datos.take 100 :: lotes (datos.drop 100) := by
  cases datos with
  | nil => exact absurd rfl h
  | cons d ds =>
    show lotesAux (d :: ds).length (d :: ds)
        = (d :: ds).take 100 :: lotesAux ((d :: ds).drop 100).length ((d :: ds).drop 100)
    have hl : (d :: ds).length = ds.length + 1 := rfl
    rw [hl]
    show (d :: ds).take 100 :: lotesAux ds.length ((d :: ds).drop 100)
        = (d :: ds).take 100 :: lotesAux ((d :: ds).drop 100).length ((d :: ds).drop 100)
    rw [lotesAux_fuel ds.length ((d :: ds).drop 100).length ((d :: ds).drop 100)
      (by simp) (le_refl _)]

theorem lotes_longitud_total (datos : List Registro) :
    ((lotes datos).map List.length).sum = datos.length := by
  by_cases hd : datos = []
  · subst hd
    rfl
  · rw [lotes_cons datos hd, List.map_cons, List.sum_cons,
      lotes_longitud_total (datos.drop 100), List.length_take, List.length_drop]
    omega
termination_by datos.length
decreasing_by
  simp only [List.length_drop]
  have : datos.length ≠ 0 := fun hl => hd (List.length_eq_zero.mp hl)
  omega

theorem lotes_no_vacio (datos : List Registro) : ∀ l ∈ lotes datos, l ≠ [] := by
  intro l hl
  by_cases hd : datos = []
  · subst hd
    cases hl
  · rw [lotes_cons datos hd] at hl
    rcases List.mem_cons.mp hl with rfl | hm
    · cases datos with
      | nil => exact absurd rfl hd
      | cons d ds => simp
    · exact lotes_no_vacio (datos.drop 100) l hm
termination_by datos.length
decreasing_by
  simp only [List.length_drop]
  have : datos.length ≠ 0 := fun hl2 => hd (List.length_eq_zero.mp hl2)
  omega

theorem suma_nat_cero (l : List Nat) : l.sum = 0 ↔ ∀ x ∈ l, x = 0 := by
  induction l with
  | nil => simp
  | cons a l ih =>
    rw [List.sum_cons]
    constructor
    · intro h x hx
      rcases List.mem_cons.mp hx with rfl | hm
      · omega
      · exact (ih.mp (by omega)) x hm
    · intro h
      rw [h a (List.mem_cons_self a l), ih.mpr (fun x hx => h x (List.mem_cons_of_mem _ hx))]

theorem suma_filtro_particion (l : List (Nat × List Registro)) (f : Nat → Bool) :
    (((l.filter (fun p => !(f p.1))).map (fun p => p.2.length)).sum
      + ((l.filter (fun p => f p.1)).map (fun p => p.2.length)).sum)
      = (l.map (fun p => p.2.length)).sum := by
  induction l with
  | nil => rfl
  | cons p l ih =>
    cases hf : f p.1 <;> simp [List.filter_cons, hf] <;> omega

theorem enumFrom_suma_long (bs : List (List Registro)) (n : Nat) :
    ((bs.enumFrom n).map (fun p => p.2.length)).sum = (bs.map List.length).sum := by
  induction bs generalizing n with
  | nil => rfl
  | cons b bs ih =>
    simp only [List.enumFrom, List.map_cons, List.sum_cons, ih]

theorem enumFrom_mem_get (bs : List (List Registro)) (n i : Nat) (h : i < bs.length) :
    (n + i, bs.get ⟨i, h⟩) ∈ bs.enumFrom n := by
  induction bs generalizing n i with
  | nil => cases h
  | cons b bs ih =>
    cases i with
    | zero => simp [List.enumFrom]
    | succ j =>
      have hmem := ih (n + 1) j (by simpa using h)
      have harit : n + (j + 1) = (n + 1) + j := by omega
      rw [harit]
      exact List.mem_cons_of_mem _ hmem

theorem enumFrom_fst_acotado (bs : List (List Registro)) (n : Nat)
    (p : Nat × List Registro) (hp : p ∈ bs.enumFrom n) : n ≤ p.1 ∧ p.1 < n + bs.length := by
  induction bs generalizing n with
  | nil => cases hp
  | cons b bs ih =>
    rcases List.mem_cons.mp hp with rfl | hm
    · simp
    · have := ih (n + 1) hm
      simp only [List.length_cons]
      omega

theorem procesarLotes_conteo (fI : Registro → Bool) (fC : Nat → Bool)
    (cols : List ColumnaDefinicion) (i : Nat) (bs : List (List Registro)) :
    (procesarLotes fI fC cols i bs).1
      = (((bs.enumFrom i).filter (fun p => !(fC p.1))).map (fun p => p.2.length)).sum := by
  induction bs generalizing i with
  | nil => rfl
  | cons b bs ih =>
    cases hc : fC i <;> simp [procesarLotes, hc, List.enumFrom, List.filter_cons, ih]

theorem insertar_resultado (fI : Registro → Bool) (fC : Nat → Bool)
    (columnas : List ColumnaDefinicion) (d : Registro) (ds : List Registro) :
    insertarDatosEnTabla fI fC columnas (d :: ds)
      = (if (procesarLotes fI fC (ajustarColumnasDecimales columnas (d :: ds)) 0
            (lotes (d :: ds))).1 = 0
         then .error "ningun registro fue insertado exitosamente"
         else .ok (procesarLotes fI fC (ajustarColumnasDecimales columnas (d :: ds)) 0
            (lotes (d :: ds)))) := rfl

theorem total_cero_sii_lotes_fallan (fI : Registro → Bool) (fC : Nat → Bool)
    (cols : List ColumnaDefinicion) (datos : List Registro) :
    ((procesarLotes fI fC cols 0 (lotes datos)).1 = 0
        ∧ datos ≠ [])
      ↔ (datos ≠ [] ∧ ∀ i, i < (lotes datos).length → fC i = true) := by
  rw [procesarLotes_conteo]
  constructor
  · rintro ⟨hz, hne⟩
    refine ⟨hne, fun i hi => ?_⟩
    by_contra hfc
    have hfc2 : fC i = false := by simpa using hfc
    have hmem : (0 + i, (lotes datos).get ⟨i, hi⟩) ∈ (lotes datos).enumFrom 0 :=
      enumFrom_mem_get _ 0 i hi
    have hfil : (0 + i, (lotes datos).get ⟨i, hi⟩)
        ∈ ((lotes datos).enumFrom 0).filter (fun p => !(fC p.1)) :=
      List.mem_filter.mpr ⟨hmem, by simp [Nat.zero_add, hfc2]⟩
    have hx : ((lotes datos).get ⟨i, hi⟩).length = 0 :=
      (suma_nat_cero _).mp hz _ (List.mem_map_of_mem _ hfil)
    exact lotes_no_vacio datos _ (List.get_mem _ _ _) (List.length_eq_zero.mp hx)
  · rintro ⟨hne, hall⟩
    refine ⟨?_, hne⟩
    have hnil : ((lotes datos).enumFrom 0).filter (fun p => !(fC p.1)) = [] := by
      rw [List.filter_eq_nil_iff]
      intro p hp
      have hb := enumFrom_fst_acotado _ 0 p hp
      have := hall p.1 (by omega)
      simp [this]
    rw [hnil]
    rfl

/-- C10: the loader's inserted-record accounting is per batch: an `ok`
outcome reports exactly the summed sizes of the batches whose transaction
committed, so a record that was skipped (no valid fields) or whose own
insert failed inside a committed batch still counts as inserted — the
reported count is entirely independent of per-record failures — and the
zero-insert load error arises only when the input was non-empty and every
batch transaction rolled back. -/
theorem conteo_insercion_por_lotes (fallaInsert : Registro → Bool) (fallaCommit : Nat → Bool)
    (columnas : List ColumnaDefinicion) (datos : List Registro) :
    (∀ n filas, insertarDatosEnTabla fallaInsert fallaCommit columnas datos = .ok (n, filas)
        → n = ((((lotes datos).enumFrom 0).filter (fun p => !(fallaCommit p.1))).map
            (fun p => p.2.length)).sum)
    ∧ (∀ e, insertarDatosEnTabla fallaInsert fallaCommit columnas datos = .error e
        → datos ≠ [] ∧ ∀ i, i < (lotes datos).length → fallaCommit i = true)
    ∧ Except.map Prod.fst (insertarDatosEnTabla fallaInsert fallaCommit columnas datos)
        = Except.map Prod.fst
            (insertarDatosEnTabla (fun _ => false) fallaCommit columnas datos) := by
  cases datos with
  | nil =>
    refine ⟨?_, ?_, rfl⟩
    · intro n filas h
      cases h
      rfl
    · intro e h
      cases h
  | cons d ds =>
    have hconteo := procesarLotes_conteo fallaInsert fallaCommit
      (ajustarColumnasDecimales columnas (d :: ds)) 0 (lotes (d :: ds))
    refine ⟨?_, ?_, ?_⟩
    · intro n filas h
      rw [insertar_resultado] at h
      by_cases hz : (procesarLotes fallaInsert fallaCommit
          (ajustarColumnasDecimales columnas (d :: ds)) 0 (lotes (d :: ds))).1 = 0
      · rw [if_pos hz] at h
        cases h
      · rw [if_neg hz] at h
        injection h with hR
        have hfst : (procesarLotes fallaInsert fallaCommit
            (ajustarColumnasDecimales columnas (d :: ds)) 0 (lotes (d :: ds))).1 = n :=
          congrArg Prod.fst hR
        rw [← hfst, hconteo]
    · intro e h
      rw [insertar_resultado] at h
      by_cases hz : (procesarLotes fallaInsert fallaCommit
          (ajustarColumnasDecimales columnas (d :: ds)) 0 (lotes (d :: ds))).1 = 0
      · exact (total_cero_sii_lotes_fallan fallaInsert fallaCommit _ (d :: ds)).mp
          ⟨hz, by simp⟩
      · rw [if_neg hz] at h
        cases h
    · have hig : (procesarLotes fallaInsert fallaCommit
          (ajustarColumnasDecimales columnas (d :: ds)) 0 (lotes (d :: ds))).1
        = (procesarLotes (fun _ => false) fallaCommit
          (ajustarColumnasDecimales columnas (d :: ds)) 0 (lotes (d :: ds))).1 := by
        rw [procesarLotes_conteo, procesarLotes_conteo]
      rw [insertar_resultado, insertar_resultado]
      by_cases hz : (procesarLotes fallaInsert fallaCommit
          (ajustarColumnasDecimales columnas (d :: ds)) 0 (lotes (d :: ds))).1 = 0
      · rw [if_pos hz, if_pos (hig ▸ hz)]
      · rw [if_neg hz, if_neg (fun hc => hz (hig ▸ hc))]
        simp only [Except.map]
        rw [hig]
  
theorem conteo_insercion_por_lotes_witness :
    insertarDatosEnTabla (fun r => r == [("a", Valor.vstr "uno")]) (fun _ => false)
        [⟨"a", "text", true⟩] [[("a", Valor.vstr "uno")], [("a", Valor.vstr "dos")]]
      = .ok (2, [[("a", Valor.vstr "dos")]])
    ∧ (2 : ℕ) = ((((lotes [[("a", Valor.vstr "uno")], [("a", Valor.vstr "dos")]]).enumFrom 0).filter
        (fun p => !((fun _ : Nat => false) p.1))).map (fun p => p.2.length)).sum :=
  ⟨by rfl,
    (conteo_insercion_por_lotes (fun r => r == [("a", Valor.vstr "uno")]) (fun _ => false)
      [⟨"a", "text", true⟩] [[("a", Valor.vstr "uno")], [("a", Valor.vstr "dos")]]).1
      2 [[("a", Valor.vstr "dos")]] (by rfl)⟩

/-- C1 amended: failure containment is per batch, not per record: for a
non-empty input the loader raises the load error exactly when every
100-record batch transaction rolled back, and an `ok` outcome reports
`N - (summed sizes of the rolled-back batches)` records as inserted — a
record whose own insert failed inside a committed batch is still counted,
so k individually malformed records inside committed batches yield a
reported shortfall of 0, not k. -/
theorem carga_parcial_por_lotes (fallaInsert : Registro → Bool) (fallaCommit : Nat → Bool)
    (columnas : List ColumnaDefinicion) (datos : List Registro) (hne : datos ≠ []) :
    ((∃ e, insertarDatosEnTabla fallaInsert fallaCommit columnas datos = .error e)
      ↔ ∀ i, i < (lotes datos).length → fallaCommit i = true)
    ∧ ∀ n filas, insertarDatosEnTabla fallaInsert fallaCommit columnas datos = .ok (n, filas)
        → n = datos.length
            - ((((lotes datos).enumFrom 0).filter (fun p => fallaCommit p.1)).map
                (fun p => p.2.length)).sum := by
  cases datos with
  | nil => exact absurd rfl hne
  | cons d ds =>
    constructor
    · constructor
      · rintro ⟨e, he⟩
        rw [insertar_resultado] at he
        by_cases hz : (procesarLotes fallaInsert fallaCommit
            (ajustarColumnasDecimales columnas (d :: ds)) 0 (lotes (d :: ds))).1 = 0
        · exact ((total_cero_sii_lotes_fallan fallaInsert fallaCommit
            (ajustarColumnasDecimales columnas (d :: ds)) (d :: ds)).mp ⟨hz, by simp⟩).2
        · rw [if_neg hz] at he
          cases he
      · intro hall
        have hz : (procesarLotes fallaInsert fallaCommit
            (ajustarColumnasDecimales columnas (d :: ds)) 0 (lotes (d :: ds))).1 = 0 :=
          ((total_cero_sii_lotes_fallan fallaInsert fallaCommit
            (ajustarColumnasDecimales columnas (d :: ds)) (d :: ds)).mpr
              ⟨by simp, hall⟩).1
        refine ⟨"ningun registro fue insertado exitosamente", ?_⟩
        rw [insertar_resultado, if_pos hz]
    · intro n filas h
      rw [insertar_resultado] at h
      by_cases hz : (procesarLotes fallaInsert fallaCommit
          (ajustarColumnasDecimales columnas (d :: ds)) 0 (lotes (d :: ds))).1 = 0
      · rw [if_pos hz] at h
        cases h
      · rw [if_neg hz] at h
        injection h with hR
        have hfst : (procesarLotes fallaInsert fallaCommit
            (ajustarColumnasDecimales columnas (d :: ds)) 0 (lotes (d :: ds))).1 = n :=
          congrArg Prod.fst hR
        rw [← hfst, procesarLotes_conteo]
        have hpart := suma_filtro_particion ((lotes (d :: ds)).enumFrom 0) fallaCommit
        have htot : (((lotes (d :: ds)).enumFrom 0).map (fun p => p.2.length)).sum
            = (d :: ds).length := by
          rw [enumFrom_suma_long, lotes_longitud_total]
        omega

theorem carga_parcial_por_lotes_witness :
    ([[("a", Valor.vstr "uno")]] : List Registro) ≠ []
    ∧ ((∃ e, insertarDatosEnTabla (fun _ => false) (fun _ => true)
          [⟨"a", "text", true⟩] [[("a", Valor.vstr "uno")]] = .error e)
        ↔ ∀ i, i < (lotes [[("a", Valor.vstr "uno")]]).length → (fun _ : Nat => true) i = true) :=
  ⟨by decide, (carga_parcial_por_lotes (fun _ => false) (fun _ => true)
      [⟨"a", "text", true⟩] [[("a", Valor.vstr "uno")]] (by decide)).1⟩

/-- C1 counterexample: with the store oracle failing exactly the record
`{a: "uno"}` inside an otherwise committing batch, the one-record load
(N = 1, k = 1, zero rows actually inserted) still returns success reporting
1 record inserted instead of failing with a load error; with the two-record
load (N = 2, k = 1) the table receives one row but the loader reports 2
inserted — a shortfall of 0, not of k = 1. -/
theorem carga_parcial_contraejemplo :
    insertarDatosEnTabla (fun r => r == [("a", Valor.vstr "uno")]) (fun _ => false)
        [⟨"a", "text", true⟩] [[("a", Valor.vstr "uno")]]
      = .ok (1, [])
    ∧ insertarDatosEnTabla (fun r => r == [("a", Valor.vstr "uno")]) (fun _ => false)
        [⟨"a", "text", true⟩] [[("a", Valor.vstr "uno")], [("a", Valor.vstr "dos")]]
      = .ok (2, [[("a", Valor.vstr "dos")]]) :=
  ⟨by rfl, by rfl⟩

theorem sanitizar_boolean_caracterizado_witness :
    sanitizarValorSegunTipo (.vstr "Si") "boolean" = .vbool true
      ↔ aMinusculas "Si" ∈ listaVerdaderos :=
  (sanitizar_boolean_caracterizado.1 "Si").1

theorem validar_nombre_tabla_correcto_witness :
    validarNombreTabla "mi_tabla" = .ok ()
      ↔ (nombreTablaValido "mi_tabla" = true
          ∧ ¬ ∃ w ∈ palabrasReservadas, aMinusculas "mi_tabla" = w) :=
  validar_nombre_tabla_correcto.1 "mi_tabla"

theorem mutaciones_protegen_id_witness :
    (aplicarSet [("id", Valor.vstr "siete"), ("x", Valor.vstr "a")]
        (filtrarCamposActualizar [⟨"id", "integer"⟩, ⟨"x", "text"⟩]
          [("id", Valor.vstr "nueve"), ("x", Valor.vstr "b")])).lookup "id"
      = some (Valor.vstr "siete") := by
  rw [(mutaciones_protegen_id [⟨"id", "integer"⟩, ⟨"x", "text"⟩]
    [("id", Valor.vstr "nueve"), ("x", Valor.vstr "b")]).2.2
    [("id", Valor.vstr "siete"), ("x", Valor.vstr "a")]]
  rfl

end Compras
